import Mathlib

/-!
Shallow embedding of the OriginHub backend's domain-consistency core:
the upvote ledger (`app/services/ideas_service.py` together with the
`Idea` and `IdeaUpvote` models) and the comment-tree builder
(`app/services/comments_service.py` together with the `Comment` model).

The relational store is modelled as a `DB` record holding the three
tables as lists of rows.  Each service method becomes a Lean function
from the pre-state to a result and a post-state; a Python `return None`
or raised `ValueError` becomes an explicit outcome constructor, and a
rollback is modelled by returning the unchanged pre-state.  Fresh UUIDs
and `datetime.utcnow()` values are passed in as parameters; timestamps
are naturals.
-/

/-- Row of the `ideas` table (`app/models/idea.py`); only the columns the
verified claims touch are kept (`upvotes` is the cached count). -/
structure Idea where
  id : String
  user_id : Option String
  upvotes : Nat
  views : Nat
  deriving DecidableEq

/-- Row of the `idea_upvotes` junction table (`app/models/idea_upvote.py`). -/
structure IdeaUpvote where
  id : String
  user_id : String
  idea_id : String
  created_at : Nat
  deriving DecidableEq

/-- Row of the `comments` table (`app/models/comment.py`);
`parent_comment_id = none` marks a top-level comment. -/
structure Comment where
  id : String
  idea_id : String
  user_id : String
  content : String
  parent_comment_id : Option String
  created_at : Nat
  updated_at : Option Nat
  deriving DecidableEq

/-- The relational store. -/
structure DB where
  ideas : List Idea
  idea_upvotes : List IdeaUpvote
  comments : List Comment
  deriving DecidableEq

/-- `SELECT count(*) FROM idea_upvotes WHERE idea_id = ...`
(the aggregate inside `IdeasService._sync_upvote_count`). -/
def countUpvotes (db : DB) (idea_id : String) : Nat :=
  (db.idea_upvotes.filter (fun u => u.idea_id == idea_id)).length

/-- `IdeasService.has_user_upvoted`: pure existence check on the ledger. -/
def has_user_upvoted (db : DB) (idea_id user_id : String) : Bool :=
  (db.idea_upvotes.find? (fun u => u.idea_id == idea_id && u.user_id == user_id)).isSome

/-- Write `n` into the `upvotes` column of the first idea row matching
`idea_id` (the ORM row update in `_sync_upvote_count`); a miss leaves the
table unchanged, mirroring the `if idea:` guard. -/
def setUpvotes : List Idea → String → Nat → List Idea
  | [], _, _ => []
  | i :: rest, idea_id, n =>
    if i.id == idea_id then { i with upvotes := n } :: rest
    else i :: setUpvotes rest idea_id n

/-- `IdeasService._sync_upvote_count`: recompute the count from the
ledger, persist it on the idea row, return it. -/
def sync_upvote_count (db : DB) (idea_id : String) : DB × Nat :=
  let actual := countUpvotes db idea_id
  ({ db with ideas := setUpvotes db.ideas idea_id actual }, actual)

/-- Outcome of an upvote mutation: `ideaNotFound` is Python's
`return None`, `alreadyUpvoted` / `notUpvoted` are the two `ValueError`s,
and `ok` carries the refreshed idea projection. -/
inductive UpvoteOutcome where
  | ideaNotFound
  | alreadyUpvoted
  | notUpvoted
  | ok (projection : Idea)
  deriving DecidableEq

/-- Whether an upvote mutation succeeded. -/
def UpvoteOutcome.isOk : UpvoteOutcome → Bool
  | .ok _ => true
  | _ => false

/-- `IdeasService.increment_upvotes`: look the idea up, reject a
duplicate upvote, insert the ledger record, then sync the cached count
before committing.  `new_id`/`now` stand for the generated UUID and
`datetime.utcnow()`.  The session factory (`app/database.py`) sets
`autoflush=False`, so the `count(*)` query inside `_sync_upvote_count`
runs before the pending `db.add(upvote)` is flushed and counts only the
committed ledger rows; `db.commit()` then applies both the insert and
the cache write.  The post-state therefore carries the pre-insert count
in `upvotes` next to the enlarged ledger. -/
def increment_upvotes (db : DB) (idea_id user_id new_id : String) (now : Nat) :
    UpvoteOutcome × DB :=
  match db.ideas.find? (fun i => i.id == idea_id) with
  | none => (.ideaNotFound, db)
  | some idea =>
    if has_user_upvoted db idea_id user_id then (.alreadyUpvoted, db)
    else
      let synced := sync_upvote_count db idea_id
      (.ok { idea with upvotes := synced.2 },
       { synced.1 with
          idea_upvotes := synced.1.idea_upvotes ++ [⟨new_id, user_id, idea_id, now⟩] })

/-- Delete the first ledger row matching `(idea_id, user_id)` (the
`db.delete(upvote)` of the row found by `decrement_upvotes`). -/
def removeFirstUpvote : List IdeaUpvote → String → String → List IdeaUpvote
  | [], _, _ => []
  | u :: rest, idea_id, user_id =>
    if u.idea_id == idea_id && u.user_id == user_id then rest
    else u :: removeFirstUpvote rest idea_id user_id

/-- `IdeasService.decrement_upvotes`: look the idea up, require an
existing upvote record, delete it, then sync the cached count before
committing.  As in `increment_upvotes`, `autoflush=False` means the
`count(*)` query still sees the row pending deletion, so the cached
count written back is the pre-delete one. -/
def decrement_upvotes (db : DB) (idea_id user_id : String) : UpvoteOutcome × DB :=
  match db.ideas.find? (fun i => i.id == idea_id) with
  | none => (.ideaNotFound, db)
  | some idea =>
    if has_user_upvoted db idea_id user_id then
      let synced := sync_upvote_count db idea_id
      (.ok { idea with upvotes := synced.2 },
       { synced.1 with
          idea_upvotes := removeFirstUpvote synced.1.idea_upvotes idea_id user_id })
    else (.notUpvoted, db)

/-- The `for idea in ideas:` loop inside
`IdeasService.sync_all_upvote_counts`, threading the session state and
accumulating the `synced_counts` mapping in iteration order. -/
def syncIdeas (db : DB) : List Idea → DB × List (String × Nat)
  | [] => (db, [])
  | i :: rest =>
    let synced := sync_upvote_count db i.id
    let tail := syncIdeas synced.1 rest
    (tail.1, (i.id, synced.2) :: tail.2)

/-- `IdeasService.sync_all_upvote_counts`: recount every idea from the
ledger and return the id-to-count mapping. -/
def sync_all_upvote_counts (db : DB) : DB × List (String × Nat) :=
  syncIdeas db db.ideas

/-- The cached `upvotes` column of idea `idea_id` (when the row exists)
agrees with the ledger count — the consistency invariant. -/
def cacheConsistent (db : DB) (idea_id : String) : Prop :=
  (db.ideas.find? (fun i => i.id == idea_id)).map (fun i => i.upvotes) =
    (db.ideas.find? (fun i => i.id == idea_id)).map (fun _ => countUpvotes db idea_id)

instance (db : DB) (iid : String) : Decidable (cacheConsistent db iid) := by
  unfold cacheConsistent; infer_instance

lemma setUpvotes_find?_self (l : List Idea) (iid : String) (n : Nat) :
    (setUpvotes l iid n).find? (fun i => i.id == iid) =
      (l.find? (fun i => i.id == iid)).map (fun i => { i with upvotes := n }) := by
  induction l with
  | nil => rfl
  | cons a rest ih =>
    by_cases h : a.id = iid
    · simp [setUpvotes, h, List.find?]
    · have hb : (a.id == iid) = false := by simpa using h
      simp [setUpvotes, hb, List.find?, ih]

lemma setUpvotes_find?_ne (l : List Idea) (iid jid : String) (n : Nat)
    (h : jid ≠ iid) :
    (setUpvotes l iid n).find? (fun i => i.id == jid) =
      l.find? (fun i => i.id == jid) := by
  induction l with
  | nil => rfl
  | cons a rest ih =>
    by_cases ha : a.id = iid
    · have hij : (iid == jid) = false := by
        simp; exact fun hc => h hc.symm
      simp [setUpvotes, ha, List.find?, hij]
    · have hb : (a.id == iid) = false := by simpa using ha
      simp [setUpvotes, hb, List.find?, ih]

lemma sync_cacheConsistent (db : DB) (iid : String) :
    cacheConsistent (sync_upvote_count db iid).1 iid := by
  unfold cacheConsistent
  have h1 : (sync_upvote_count db iid).1.ideas =
      setUpvotes db.ideas iid (countUpvotes db iid) := rfl
  have h2 : countUpvotes (sync_upvote_count db iid).1 iid = countUpvotes db iid := rfl
  rw [h1, h2, setUpvotes_find?_self]
  cases db.ideas.find? (fun i => i.id == iid) <;> simp

lemma find?_append_of_none {α : Type} (p : α → Bool) (l1 l2 : List α)
    (h : l1.find? p = none) : (l1 ++ l2).find? p = l2.find? p := by
  induction l1 with
  | nil => rfl
  | cons a rest ih =>
    rcases hpa : p a with _ | _
    · simp only [List.find?_cons, hpa, List.cons_append] at h ⊢
      exact ih h
    · simp [List.find?_cons, hpa] at h

lemma increment_ok_state (db : DB) (iid uid nid : String) (t : Nat) (idea : Idea)
    (hfind : db.ideas.find? (fun i => i.id == iid) = some idea)
    (hno : has_user_upvoted db iid uid = false) :
    increment_upvotes db iid uid nid t =
      (.ok { idea with upvotes := countUpvotes db iid },
       ⟨setUpvotes db.ideas iid (countUpvotes db iid),
        db.idea_upvotes ++ [⟨nid, uid, iid, t⟩], db.comments⟩) := by
  simp [increment_upvotes, sync_upvote_count, hfind, hno]

lemma decrement_ok_state (db : DB) (iid uid : String) (idea : Idea)
    (hfind : db.ideas.find? (fun i => i.id == iid) = some idea)
    (hyes : has_user_upvoted db iid uid = true) :
    decrement_upvotes db iid uid =
      (.ok { idea with upvotes := countUpvotes db iid },
       ⟨setUpvotes db.ideas iid (countUpvotes db iid),
        removeFirstUpvote db.idea_upvotes iid uid, db.comments⟩) := by
  simp [decrement_upvotes, sync_upvote_count, hfind, hyes]

/-- A one-idea store with a single existing upvote by user `u2`; its
cached count (1) matches its ledger. -/
def exDB : DB :=
  ⟨[⟨"i1", some "owner", 1, 0⟩], [⟨"r0", "u2", "i1", 0⟩], []⟩

/-- C1 evaluated at a concrete in-sync store: because the session runs
with `autoflush=False`, the recount inside each mutation misses the
pending ledger change, so after a successful `increment_upvotes` the
cached count (1) undershoots the ledger (2 rows), and after a successful
`decrement_upvotes` it overshoots (1 cached, 0 rows). -/
theorem upvote_cache_off_by_one :
    cacheConsistent exDB "i1" ∧
    (increment_upvotes exDB "i1" "u1" "n1" 1).1.isOk = true ∧
    ((increment_upvotes exDB "i1" "u1" "n1" 1).2.ideas.find? (fun i => i.id == "i1")).map
      (fun i => i.upvotes) = some 1 ∧
    countUpvotes (increment_upvotes exDB "i1" "u1" "n1" 1).2 "i1" = 2 ∧
    ¬ cacheConsistent (increment_upvotes exDB "i1" "u1" "n1" 1).2 "i1" ∧
    (decrement_upvotes exDB "i1" "u2").1.isOk = true ∧
    ((decrement_upvotes exDB "i1" "u2").2.ideas.find? (fun i => i.id == "i1")).map
      (fun i => i.upvotes) = some 1 ∧
    countUpvotes (decrement_upvotes exDB "i1" "u2").2 "i1" = 0 ∧
    ¬ cacheConsistent (decrement_upvotes exDB "i1" "u2").2 "i1" := by
  decide

lemma has_user_upvoted_false_find? (db : DB) (iid uid : String)
    (h : has_user_upvoted db iid uid = false) :
    db.idea_upvotes.find? (fun u => u.idea_id == iid && u.user_id == uid) = none := by
  unfold has_user_upvoted at h
  rcases hf : db.idea_upvotes.find? (fun u => u.idea_id == iid && u.user_id == uid) with _ | u
  · exact hf
  · rw [hf] at h; simp at h

/-- Specification of the double-add experiment: the first call succeeds,
the second is rejected as a duplicate leaving the state untouched, and
the ledger holds exactly one row for the pair. -/
def DoubleAddSpec (db : DB) (iid uid n1 n2 : String) (t1 t2 : Nat) : Prop :=
  (increment_upvotes db iid uid n1 t1).1.isOk = true ∧
  increment_upvotes (increment_upvotes db iid uid n1 t1).2 iid uid n2 t2 =
    (.alreadyUpvoted, (increment_upvotes db iid uid n1 t1).2) ∧
  ((increment_upvotes db iid uid n1 t1).2.idea_upvotes.filter
      (fun u => u.idea_id == iid && u.user_id == uid)).length = 1

/-- C2: adding the same upvote twice in sequence succeeds once, then
fails with the duplicate error, and persists exactly one ledger row. -/
theorem double_add_once (db : DB) (iid uid n1 n2 : String) (t1 t2 : Nat)
    (hidea : (db.ideas.find? (fun i => i.id == iid)).isSome = true)
    (hno : has_user_upvoted db iid uid = false) :
    DoubleAddSpec db iid uid n1 n2 t1 t2 := by
  rcases hf : db.ideas.find? (fun i => i.id == iid) with _ | idea
  · rw [hf] at hidea; simp at hidea
  · have hstate := increment_ok_state db iid uid n1 t1 idea hf hno
    have hfind1 : (setUpvotes db.ideas iid (countUpvotes db iid)).find?
          (fun i => i.id == iid) = some { idea with upvotes := countUpvotes db iid } := by
      rw [setUpvotes_find?_self, hf]
      rfl
    have hup1 : has_user_upvoted
        (⟨setUpvotes db.ideas iid (countUpvotes db iid),
          db.idea_upvotes ++ [⟨n1, uid, iid, t1⟩], db.comments⟩ : DB) iid uid = true := by
      show ((db.idea_upvotes ++ ([⟨n1, uid, iid, t1⟩] : List IdeaUpvote)).find?
          (fun u : IdeaUpvote => u.idea_id == iid && u.user_id == uid)).isSome = true
      rw [find?_append_of_none _ _ _ (has_user_upvoted_false_find? db iid uid hno)]
      simp [List.find?]
    refine ⟨?_, ?_, ?_⟩
    · rw [hstate]
      rfl
    · rw [hstate]
      show increment_upvotes
          (⟨setUpvotes db.ideas iid (countUpvotes db iid),
            db.idea_upvotes ++ [⟨n1, uid, iid, t1⟩], db.comments⟩ : DB) iid uid n2 t2 =
        (.alreadyUpvoted,
          (⟨setUpvotes db.ideas iid (countUpvotes db iid),
            db.idea_upvotes ++ [⟨n1, uid, iid, t1⟩], db.comments⟩ : DB))
      simp [increment_upvotes, hfind1, hup1]
    · rw [hstate]
      show ((db.idea_upvotes ++ ([⟨n1, uid, iid, t1⟩] : List IdeaUpvote)).filter
          (fun u : IdeaUpvote => u.idea_id == iid && u.user_id == uid)).length = 1
      rw [List.filter_append]
      have h0 : db.idea_upvotes.filter (fun u => u.idea_id == iid && u.user_id == uid) = [] := by
        rw [List.filter_eq_nil_iff]
        intro a ha
        have := List.find?_eq_none.mp (has_user_upvoted_false_find? db iid uid hno) a ha
        simpa using this
      rw [h0]
      simp [List.filter]

/-- Witness for C2 on the concrete one-idea store. -/
theorem double_add_once_witness : DoubleAddSpec exDB "i1" "u1" "n1" "n2" 1 2 :=
  double_add_once exDB "i1" "u1" "n1" "n2" 1 2 (by decide) (by decide)

/-- C3 evaluated at the concrete in-sync store `exDB`: the add/remove
pair by `u1` succeeds, leaves `has_user_upvoted` false, but drives the
cached count from its pre-add value 1 up to 2 (the remove's recount
still sees the row pending deletion), so the pre-add value is not
restored. -/
theorem add_remove_shifts_cache :
    cacheConsistent exDB "i1" ∧
    has_user_upvoted exDB "i1" "u1" = false ∧
    ((exDB.ideas.find? (fun i => i.id == "i1")).map (fun i => i.upvotes) = some 1) ∧
    (increment_upvotes exDB "i1" "u1" "n1" 1).1.isOk = true ∧
    (decrement_upvotes (increment_upvotes exDB "i1" "u1" "n1" 1).2 "i1" "u1").1.isOk = true ∧
    ((decrement_upvotes (increment_upvotes exDB "i1" "u1" "n1" 1).2 "i1" "u1").2.ideas.find?
        (fun i => i.id == "i1")).map (fun i => i.upvotes) = some 2 ∧
    (some 2 : Option Nat) ≠ some 1 ∧
    has_user_upvoted
      (decrement_upvotes (increment_upvotes exDB "i1" "u1" "n1" 1).2 "i1" "u1").2
      "i1" "u1" = false := by
  decide

lemma syncIdeas_spec (todo : List Idea) : ∀ db : DB,
    (syncIdeas db todo).1.idea_upvotes = db.idea_upvotes ∧
    (syncIdeas db todo).2 = todo.map (fun i => (i.id, countUpvotes db i.id)) ∧
    (∀ iid, todo.any (fun i => i.id == iid) = true →
      (syncIdeas db todo).1.ideas.find? (fun i => i.id == iid) =
        (db.ideas.find? (fun i => i.id == iid)).map
          (fun j => { j with upvotes := countUpvotes db iid })) ∧
    (∀ iid, todo.any (fun i => i.id == iid) = false →
      (syncIdeas db todo).1.ideas.find? (fun i => i.id == iid) =
        db.ideas.find? (fun i => i.id == iid)) := by
  induction todo with
  | nil =>
    intro db
    refine ⟨rfl, rfl, ?_, fun iid _ => rfl⟩
    intro iid h
    simp at h
  | cons a rest ih =>
    intro db
    obtain ⟨ih1, ih2, ih3, ih4⟩ := ih (sync_upvote_count db a.id).1
    refine ⟨?_, ?_, ?_, ?_⟩
    · show (syncIdeas (sync_upvote_count db a.id).1 rest).1.idea_upvotes = db.idea_upvotes
      rw [ih1]
      rfl
    · show ((a.id, (sync_upvote_count db a.id).2) ::
          (syncIdeas (sync_upvote_count db a.id).1 rest).2) = _
      rw [ih2]
      rfl
    · intro iid h
      rw [List.any_cons] at h
      show (syncIdeas (sync_upvote_count db a.id).1 rest).1.ideas.find?
          (fun i => i.id == iid) = _
      rcases hrest : rest.any (fun i => i.id == iid) with _ | _
      · -- the head idea is the only match in the iteration list
        rw [hrest] at h
        simp only [Bool.or_false] at h
        have ha : a.id = iid := by simpa using h
        rw [ih4 iid hrest]
        show (setUpvotes db.ideas a.id (countUpvotes db a.id)).find?
            (fun i => i.id == iid) = _
        rw [ha, setUpvotes_find?_self]
      · rw [ih3 iid hrest]
        by_cases ha : a.id = iid
        · show ((setUpvotes db.ideas a.id (countUpvotes db a.id)).find?
              (fun i => i.id == iid)).map (fun j => { j with upvotes := countUpvotes db iid }) = _
          rw [ha, setUpvotes_find?_self]
          cases db.ideas.find? (fun i => i.id == iid) <;> rfl
        · show ((setUpvotes db.ideas a.id (countUpvotes db a.id)).find?
              (fun i => i.id == iid)).map (fun j => { j with upvotes := countUpvotes db iid }) = _
          rw [setUpvotes_find?_ne _ _ _ _ (fun hc => ha hc.symm)]
    · intro iid h
      rw [List.any_cons] at h
      obtain ⟨h1, h2⟩ := Bool.or_eq_false_iff.mp h
      have ha : a.id ≠ iid := by simpa using h1
      show (syncIdeas (sync_upvote_count db a.id).1 rest).1.ideas.find?
          (fun i => i.id == iid) = _
      rw [ih4 iid h2]
      show (setUpvotes db.ideas a.id (countUpvotes db a.id)).find?
          (fun i => i.id == iid) = _
      rw [setUpvotes_find?_ne _ _ _ _ (fun hc => ha hc.symm)]

/-- `sync_all_upvote_counts` returns the exact ledger count for every
idea row, in iteration order, and persists each count to the idea's
cached `upvotes` column; the ledger itself is untouched. -/
def RecountSpec (db : DB) : Prop :=
  (sync_all_upvote_counts db).2 = db.ideas.map (fun i => (i.id, countUpvotes db i.id)) ∧
  (sync_all_upvote_counts db).1.idea_upvotes = db.idea_upvotes ∧
  ∀ iid, ((sync_all_upvote_counts db).1.ideas.find? (fun i => i.id == iid)).map
      (fun i => i.upvotes) =
    (db.ideas.find? (fun i => i.id == iid)).map (fun _ => countUpvotes db iid)

/-- C8: the global recount maps every idea id to the true ledger count,
whatever the cached values were beforehand, and writes those counts back. -/
theorem recount_all_correct (db : DB) : RecountSpec db := by
  obtain ⟨h1, h2, h3, h4⟩ := syncIdeas_spec db.ideas db
  refine ⟨h2, h1, ?_⟩
  intro iid
  show ((syncIdeas db db.ideas).1.ideas.find? (fun i => i.id == iid)).map
      (fun i => i.upvotes) = _
  rcases hany : db.ideas.any (fun i => i.id == iid) with _ | _
  · rw [h4 iid hany]
    have hnone : db.ideas.find? (fun i => i.id == iid) = none := by
      rw [List.find?_eq_none]
      exact List.any_eq_false.mp hany
    rw [hnone]
    rfl
  · rw [h3 iid hany]
    cases db.ideas.find? (fun i => i.id == iid) <;> rfl

/-- Outcome of `CommentsService.create_comment`: the three `ValueError`s
and the success case carrying the new comment row. -/
inductive CommentOutcome where
  | ideaNotFound
  | parentNotFound
  | parentIdeaMismatch
  | ok (c : Comment)
  deriving DecidableEq

/-- `CommentsService.create_comment`: require the idea, validate a reply's
parent (existence, then same-idea ownership), then persist one new row.
`new_id`/`now` stand for the generated UUID and `datetime.utcnow()`. -/
def create_comment (db : DB) (idea_id user_id content : String)
    (parent_comment_id : Option String) (new_id : String) (now : Nat) :
    CommentOutcome × DB :=
  match db.ideas.find? (fun i => i.id == idea_id) with
  | none => (.ideaNotFound, db)
  | some _ =>
    match parent_comment_id with
    | some pid =>
      match db.comments.find? (fun c => c.id == pid) with
      | none => (.parentNotFound, db)
      | some parent =>
        if parent.idea_id == idea_id then
          (.ok ⟨new_id, idea_id, user_id, content, some pid, now, none⟩,
           { db with comments :=
              db.comments ++ [⟨new_id, idea_id, user_id, content, some pid, now, none⟩] })
        else (.parentIdeaMismatch, db)
    | none =>
      (.ok ⟨new_id, idea_id, user_id, content, none, now, none⟩,
       { db with comments :=
          db.comments ++ [⟨new_id, idea_id, user_id, content, none, now, none⟩] })

/-- C5: with the idea present, a reply whose parent id resolves to no
comment fails `parentNotFound`, and one whose parent belongs to another
idea fails `parentIdeaMismatch`; in both cases the store — in particular
the idea's comment set — is unchanged. -/
theorem reply_parent_validation (db : DB) (iid uid content pid nid : String) (now : Nat)
    (hidea : (db.ideas.find? (fun i => i.id == iid)).isSome = true) :
    (db.comments.find? (fun c => c.id == pid) = none →
      create_comment db iid uid content (some pid) nid now = (.parentNotFound, db)) ∧
    (∀ parent, db.comments.find? (fun c => c.id == pid) = some parent →
      parent.idea_id ≠ iid →
      create_comment db iid uid content (some pid) nid now = (.parentIdeaMismatch, db)) := by
  rcases hf : db.ideas.find? (fun i => i.id == iid) with _ | idea
  · rw [hf] at hidea; simp at hidea
  · constructor
    · intro hp
      simp [create_comment, hf, hp]
    · intro parent hp hne
      have hb : (parent.idea_id == iid) = false := by simpa using hne
      simp [create_comment, hf, hp, hb]

/-- Store used for the comment-side witnesses: idea `i1` owned by `u0`
and an unrelated idea `i2` with one comment `c2` on it. -/
def exCDB : DB :=
  ⟨[⟨"i1", some "u0", 0, 0⟩, ⟨"i2", some "u0", 0, 0⟩], [],
   [⟨"c2", "i2", "u2", "x", none, 1, none⟩]⟩

/-- Witness for C5: on `exCDB`, a dangling parent id fails
`parentNotFound` and a parent on the other idea fails
`parentIdeaMismatch`, both leaving the store unchanged. -/
theorem reply_parent_validation_witness :
    create_comment exCDB "i1" "u1" "hi" (some "zz") "n1" 2 = (.parentNotFound, exCDB) ∧
    create_comment exCDB "i1" "u1" "hi" (some "c2") "n1" 2 = (.parentIdeaMismatch, exCDB) :=
  ⟨(reply_parent_validation exCDB "i1" "u1" "hi" "zz" "n1" 2 (by decide)).1 (by decide),
   (reply_parent_validation exCDB "i1" "u1" "hi" "c2" "n1" 2 (by decide)).2
     ⟨"c2", "i2", "u2", "x", none, 1, none⟩ (by decide) (by decide)⟩

/-- The flush of `db.delete(comment)` under the ORM's default
relationship handling: the `replies` backref
(`app/models/comment.py`) configures neither a delete cascade nor
`passive_deletes`, so before deleting the parent row the unit of work
loads the direct replies and nulls their `parent_comment_id` (the
column is nullable); the database-level `ON DELETE CASCADE` on that
column therefore never fires.  The direct replies survive as top-level
comments and deeper descendants keep their surviving parents. -/
def orphanReplies (cs : List Comment) (cid : String) : List Comment :=
  cs.map (fun c =>
    if c.parent_comment_id == some cid then { c with parent_comment_id := none } else c)

/-- Outcome of `CommentsService.delete_comment`: `notFound` is Python's
`return False`, `permissionDenied` the `ValueError`, `deleted` the
successful `return True`. -/
inductive DeleteOutcome where
  | notFound
  | permissionDenied
  | deleted
  deriving DecidableEq

/-- `CommentsService.delete_comment`: look the comment up, then its idea,
check author-or-owner permission, then delete the row (the storage layer
cascades to descendant replies). -/
def delete_comment (db : DB) (comment_id user_id : String) : DeleteOutcome × DB :=
  match db.comments.find? (fun c => c.id == comment_id) with
  | none => (.notFound, db)
  | some comment =>
    match db.ideas.find? (fun i => i.id == comment.idea_id) with
    | none => (.notFound, db)
    | some idea =>
      let is_comment_author := comment.user_id == user_id
      let is_idea_owner :=
        match idea.user_id with
        | some ou => ou == user_id
        | none => false
      if !(is_comment_author || is_idea_owner) then (.permissionDenied, db)
      else
        (.deleted,
         { db with comments :=
            (orphanReplies db.comments comment_id).filter (fun c => !(c.id == comment_id)) })

/-- Deletion of comment `cid` by `uid` succeeds exactly for the comment
author or the idea owner; anyone else gets `permissionDenied` with the
comment still retrievable. -/
def DeletePermissionSpec (db : DB) (cid uid : String) (c : Comment) (idea : Idea) : Prop :=
  ((delete_comment db cid uid).1 = .deleted ↔
    (c.user_id = uid ∨ idea.user_id = some uid)) ∧
  (¬(c.user_id = uid ∨ idea.user_id = some uid) →
    delete_comment db cid uid = (.permissionDenied, db) ∧
    (delete_comment db cid uid).2.comments.find? (fun x => x.id == cid) = some c)

/-- C7: with the comment and its owning idea present, `delete_comment`
succeeds iff the requester is the comment author or the idea owner, and
otherwise fails `permissionDenied` leaving the comment queryable. -/
theorem delete_permission (db : DB) (cid uid : String) (c : Comment) (idea : Idea)
    (hc : db.comments.find? (fun x => x.id == cid) = some c)
    (hi : db.ideas.find? (fun i => i.id == c.idea_id) = some idea) :
    DeletePermissionSpec db cid uid c idea := by
  have hbool : (c.user_id == uid ||
      (match idea.user_id with | some ou => ou == uid | none => false)) = true ↔
      (c.user_id = uid ∨ idea.user_id = some uid) := by
    cases idea.user_id <;> simp
  by_cases hperm : c.user_id = uid ∨ idea.user_id = some uid
  · have hb : (c.user_id == uid ||
        (match idea.user_id with | some ou => ou == uid | none => false)) = true :=
      hbool.mpr hperm
    constructor
    · simp [delete_comment, hc, hi, hb]
      exact hperm
    · intro hcon; exact absurd hperm hcon
  · have hb : (c.user_id == uid ||
        (match idea.user_id with | some ou => ou == uid | none => false)) = false := by
      rcases hx : (c.user_id == uid ||
          (match idea.user_id with | some ou => ou == uid | none => false)) with _ | _
      · rfl
      · exact absurd (hbool.mp hx) hperm
    constructor
    · simp [delete_comment, hc, hi, hb]
      push_neg at hperm
      exact hperm
    · intro _
      refine ⟨by simp [delete_comment, hc, hi, hb], ?_⟩
      have : delete_comment db cid uid = (.permissionDenied, db) := by
        simp [delete_comment, hc, hi, hb]
      rw [this]
      exact hc

/-- Witness for C7: on `exCDB`, user `u9` (neither author `u2` nor owner
`u0`) cannot delete comment `c2`; the failure leaves `c2` queryable. -/
theorem delete_permission_witness :
    DeletePermissionSpec exCDB "c2" "u9"
      ⟨"c2", "i2", "u2", "x", none, 1, none⟩ ⟨"i2", some "u0", 0, 0⟩ :=
  delete_permission exCDB "c2" "u9"
    ⟨"c2", "i2", "u2", "x", none, 1, none⟩ ⟨"i2", some "u0", 0, 0⟩
    (by decide) (by decide)

/-- C10: when the comment exists but its owning idea row is absent,
`delete_comment` reports not-found (Python `False`) for any requester,
deleting nothing and raising no permission error. -/
theorem delete_missing_idea (db : DB) (cid uid : String) (c : Comment)
    (hc : db.comments.find? (fun x => x.id == cid) = some c)
    (hi : db.ideas.find? (fun i => i.id == c.idea_id) = none) :
    delete_comment db cid uid = (.notFound, db) := by
  simp [delete_comment, hc, hi]

/-- A store holding one comment whose `idea_id` dangles. -/
def exOrphanDB : DB := ⟨[], [], [⟨"c1", "iX", "u1", "x", none, 1, none⟩]⟩

/-- Witness for C10: even the comment's own author gets not-found on the
orphaned comment. -/
theorem delete_missing_idea_witness :
    delete_comment exOrphanDB "c1" "u1" = (.notFound, exOrphanDB) :=
  delete_missing_idea exOrphanDB "c1" "u1" ⟨"c1", "iX", "u1", "x", none, 1, none⟩
    (by decide) (by decide)

/-- Sort key for replies: ascending `created_at`
(`sorted(replies, key=lambda x: x.created_at)`). -/
def ascLe (a b : Comment) : Prop := a.created_at ≤ b.created_at

/-- Sort key for top-level comments: descending `created_at`
(`order_by(created_at.desc())` / `sorted(..., reverse=True)`). -/
def descLe (a b : Comment) : Prop := b.created_at ≤ a.created_at

instance : DecidableRel ascLe := fun a b => Nat.decLe a.created_at b.created_at

instance : DecidableRel descLe := fun a b => Nat.decLe b.created_at a.created_at

instance : IsTotal Comment ascLe :=
  ⟨fun a b => Nat.le_total a.created_at b.created_at⟩

instance : IsTrans Comment ascLe :=
  ⟨fun _ _ _ h1 h2 => Nat.le_trans h1 h2⟩

instance : IsTotal Comment descLe :=
  ⟨fun a b => Nat.le_total b.created_at a.created_at⟩

instance : IsTrans Comment descLe :=
  ⟨fun _ _ _ h1 h2 => Nat.le_trans h2 h1⟩

/-- A node of the nested tree returned by
`CommentsService.get_idea_comments`: the comment's own row plus its
ordered direct replies. -/
inductive CommentNode where
  | mk (comment : Comment) (replies : List CommentNode)

/-- The comment row at the root of a node. -/
def CommentNode.comment : CommentNode → Comment
  | .mk c _ => c

/-- The ordered direct replies of a node. -/
def CommentNode.replies : CommentNode → List CommentNode
  | .mk _ rs => rs

/-- The `comments` local of `get_idea_comments`: all rows of the idea,
ordered by creation time descending. -/
def ideaPool (db : DB) (idea_id : String) : List Comment :=
  List.insertionSort descLe (db.comments.filter (fun c => c.idea_id == idea_id))

/-- `[c for c in comments if c.parent_comment_id == comment.id]`. -/
def childrenOf (pool : List Comment) (cid : String) : List Comment :=
  pool.filter (fun x => x.parent_comment_id == some cid)

/-- `build_comment_tree`: attach the direct replies, sorted ascending by
creation time, recursing into each.  The Python recursion has no fuel;
here the pool size bounds the depth, and the fuel argument is
instantiated with it, which is exact on every acyclic store. -/
def build_comment_tree (pool : List Comment) : Nat → Comment → CommentNode
  | 0, c => .mk c []
  | fuel + 1, c =>
    .mk c ((List.insertionSort ascLe (childrenOf pool c.id)).map
      (build_comment_tree pool fuel))

/-- `CommentsService.get_idea_comments`: fetch the idea's comments once,
keep the top-level ones (null parent) sorted newest-first, and build the
reply tree under each. -/
def get_idea_comments (db : DB) (idea_id : String) : List CommentNode :=
  (List.insertionSort descLe
      ((ideaPool db idea_id).filter (fun c => c.parent_comment_id == none))).map
    (build_comment_tree (ideaPool db idea_id) (ideaPool db idea_id).length)

lemma length_filter_le_mono {α : Type} (p q : α → Bool) (l : List α)
    (hpq : ∀ a, p a = true → q a = true) :
    (l.filter p).length ≤ (l.filter q).length := by
  induction l with
  | nil => exact Nat.le_refl _
  | cons a rest ih =>
    rcases hpa : p a with _ | _
    · rcases hqa : q a with _ | _
      · simpa [List.filter_cons, hpa, hqa] using ih
      · simpa [List.filter_cons, hpa, hqa] using Nat.le_succ_of_le ih
    · have hqa : q a = true := hpq a hpa
      simpa [List.filter_cons, hpa, hqa] using Nat.succ_le_succ ih

lemma length_filter_lt {α : Type} (p q : α → Bool) (l : List α)
    (hpq : ∀ x, p x = true → q x = true) (a : α) (ha : a ∈ l)
    (hqa : q a = true) (hpa : p a = false) :
    (l.filter p).length < (l.filter q).length := by
  induction l with
  | nil => cases ha
  | cons b rest ih =>
    rcases List.mem_cons.mp ha with rfl | hmem
    · simpa [List.filter_cons, hpa, hqa] using
        Nat.lt_succ_of_le (length_filter_le_mono p q rest hpq)
    · rcases hpb : p b with _ | _
      · rcases hqb : q b with _ | _
        · simpa [List.filter_cons, hpb, hqb] using ih hmem
        · simpa [List.filter_cons, hpb, hqb] using Nat.lt_succ_of_lt (ih hmem)
      · have hqb : q b = true := hpq b hpb
        simpa [List.filter_cons, hpb, hqb] using Nat.succ_lt_succ (ih hmem)

lemma length_filter_lt_length {α : Type} (p : α → Bool) (l : List α)
    (a : α) (ha : a ∈ l) (hpa : p a = false) :
    (l.filter p).length < l.length := by
  have := length_filter_lt p (fun _ => true) l (fun _ _ => rfl) a ha rfl hpa
  simpa using this

/-- Acyclicity certificate for the parent-pointer graph: a rank function
under which every stored parent ranks strictly below its stored child.
Reachable stores admit one (creation order), since `create_comment` only
references an already-existing parent and never re-points one. -/
def RankOk (rank : String → Nat) (cs : List Comment) : Prop :=
  ∀ c ∈ cs, ∀ q ∈ cs, c.parent_comment_id = some q.id → rank q.id < rank c.id

/-- Well-formedness of one tree node against the flat row set: its
replies are exactly the rows whose parent pointer names it, listed in
ascending creation order, and each reply subtree is well-formed in turn.
An empty `childrenOf` forces an empty `replies` list. -/
inductive NodeOk (pool : List Comment) : CommentNode → Prop where
  | intro (c : Comment) (rs : List CommentNode)
      (hperm : (rs.map CommentNode.comment).Perm (childrenOf pool c.id))
      (hasc : List.Pairwise ascLe (rs.map CommentNode.comment))
      (hrec : ∀ r ∈ rs, NodeOk pool r) :
      NodeOk pool (.mk c rs)

lemma build_root (pool : List Comment) (fuel : Nat) (c : Comment) :
    (build_comment_tree pool fuel c).comment = c := by
  cases fuel <;> rfl

lemma map_comment_build (pool : List Comment) (fuel : Nat) (l : List Comment) :
    (l.map (build_comment_tree pool fuel)).map CommentNode.comment = l := by
  induction l with
  | nil => rfl
  | cons a rest ih => simp [build_root, ih]

lemma build_ok (pool : List Comment) (rank : String → Nat) (hr : RankOk rank pool) :
    ∀ fuel, ∀ c ∈ pool,
      (pool.filter (fun x => decide (rank c.id < rank x.id))).length < fuel →
      NodeOk pool (build_comment_tree pool fuel c) := by
  intro fuel
  induction fuel with
  | zero => exact fun c _ h => absurd h (Nat.not_lt_zero _)
  | succ fuel ih =>
    intro c hc hbound
    show NodeOk pool (.mk c ((List.insertionSort ascLe (childrenOf pool c.id)).map
      (build_comment_tree pool fuel)))
    refine NodeOk.intro c _ ?_ ?_ ?_
    · rw [map_comment_build]
      exact List.perm_insertionSort ascLe (childrenOf pool c.id)
    · rw [map_comment_build]
      exact List.sorted_insertionSort ascLe (childrenOf pool c.id)
    · intro r hrm
      obtain ⟨y, hy, rfl⟩ := List.mem_map.mp hrm
      have hy' : y ∈ childrenOf pool c.id :=
        (List.perm_insertionSort ascLe _).mem_iff.mp hy
      have hymem : y ∈ pool := (List.mem_filter.mp hy').1
      have hpar : y.parent_comment_id = some c.id := by
        have := (List.mem_filter.mp hy').2
        simpa using this
      have hrank : rank c.id < rank y.id := hr y hymem c hc hpar
      have hlt : (pool.filter (fun x => decide (rank y.id < rank x.id))).length <
          (pool.filter (fun x => decide (rank c.id < rank x.id))).length := by
        refine length_filter_lt _ _ _ ?_ y hymem ?_ ?_
        · intro a hpa
          simp only [decide_eq_true_eq] at hpa ⊢
          exact Nat.lt_trans hrank hpa
        · simp only [decide_eq_true_eq]
          exact hrank
        · simp
      exact ih y hymem (Nat.lt_of_lt_of_le hlt (Nat.lt_succ_iff.mp hbound))

lemma rankOk_of_sub (rank : String → Nat) (l l' : List Comment)
    (hsub : ∀ x ∈ l', x ∈ l) (hr : RankOk rank l) : RankOk rank l' :=
  fun c hc q hq hp => hr c (hsub c hc) q (hsub q hq) hp

lemma mem_ideaPool (db : DB) (iid : String) (x : Comment) :
    x ∈ ideaPool db iid → x ∈ db.comments := by
  intro hx
  have hm := (List.perm_insertionSort descLe _).mem_iff.mp hx
  exact (List.mem_filter.mp hm).1

/-- Output contract of `get_idea_comments`: the returned roots are
exactly the idea's top-level comments in descending creation order, and
every node of the forest lists its direct replies exactly, in ascending
creation order (so a comment without replies gets an empty list). -/
def TreeSpec (db : DB) (iid : String) : Prop :=
  ((get_idea_comments db iid).map CommentNode.comment).Perm
    ((db.comments.filter (fun c => c.idea_id == iid)).filter
      (fun c => c.parent_comment_id == none)) ∧
  List.Pairwise descLe ((get_idea_comments db iid).map CommentNode.comment) ∧
  ∀ n ∈ get_idea_comments db iid, NodeOk (ideaPool db iid) n

/-- C4: on any acyclic store (witnessed by a rank function), the comment
tree for an idea lists the top-level comments newest-first and, at every
nesting level, each node's direct replies oldest-first; childless
comments carry an empty reply list. -/
theorem comment_tree_ordered (db : DB) (iid : String) (rank : String → Nat)
    (hr : RankOk rank db.comments) : TreeSpec db iid := by
  have hrpool : RankOk rank (ideaPool db iid) :=
    rankOk_of_sub rank db.comments (ideaPool db iid) (mem_ideaPool db iid) hr
  have hmap : (get_idea_comments db iid).map CommentNode.comment =
      List.insertionSort descLe
        ((ideaPool db iid).filter (fun c => c.parent_comment_id == none)) := by
    show ((List.insertionSort descLe
        ((ideaPool db iid).filter (fun c => c.parent_comment_id == none))).map
      (build_comment_tree (ideaPool db iid) (ideaPool db iid).length)).map
        CommentNode.comment = _
    rw [map_comment_build]
  refine ⟨?_, ?_, ?_⟩
  · rw [hmap]
    have p1 : (List.insertionSort descLe
        ((ideaPool db iid).filter (fun c => c.parent_comment_id == none))).Perm
        ((ideaPool db iid).filter (fun c => c.parent_comment_id == none)) :=
      List.perm_insertionSort descLe _
    have p2 : ((ideaPool db iid).filter (fun c => c.parent_comment_id == none)).Perm
        ((db.comments.filter (fun c => c.idea_id == iid)).filter
          (fun c => c.parent_comment_id == none)) :=
      (List.perm_insertionSort descLe _).filter _
    exact p1.trans p2
  · rw [hmap]
    exact List.sorted_insertionSort descLe _
  · intro n hn
    obtain ⟨c, hcmem, rfl⟩ := List.mem_map.mp hn
    have hc1 : c ∈ (ideaPool db iid).filter (fun c => c.parent_comment_id == none) :=
      (List.perm_insertionSort descLe _).mem_iff.mp hcmem
    have hcpool : c ∈ ideaPool db iid := (List.mem_filter.mp hc1).1
    exact build_ok (ideaPool db iid) rank hrpool (ideaPool db iid).length c hcpool
      (length_filter_lt_length _ _ c hcpool (by simp))

/-- The spec's tree example: three top-level comments at times 1, 2, 3
and two replies to `p2` at times 10 and 20. -/
def exTreeDB : DB :=
  ⟨[⟨"i1", some "u0", 0, 0⟩], [],
   [⟨"p1", "i1", "u1", "a", none, 1, none⟩,
    ⟨"p2", "i1", "u1", "b", none, 2, none⟩,
    ⟨"p3", "i1", "u1", "c", none, 3, none⟩,
    ⟨"r10", "i1", "u2", "d", some "p2", 10, none⟩,
    ⟨"r20", "i1", "u2", "e", some "p2", 20, none⟩]⟩

/-- Creation ranks for `exTreeDB` (parents rank below children). -/
def exRank (s : String) : Nat := s.length

instance (rank : String → Nat) (cs : List Comment) : Decidable (RankOk rank cs) := by
  unfold RankOk; infer_instance

/-- Witness for C4 on the spec's example store. -/
theorem comment_tree_ordered_witness : TreeSpec exTreeDB "i1" :=
  comment_tree_ordered exTreeDB "i1" exRank (by decide)

/-- `c` is a (direct or transitive) descendant reply of the comment whose
id is `root`, within the row set `cs`. -/
inductive DescOf (cs : List Comment) (root : String) : Comment → Prop where
  | direct (c : Comment) (hc : c ∈ cs) (hp : c.parent_comment_id = some root) :
      DescOf cs root c
  | step (c p : Comment) (hc : c ∈ cs) (hd : DescOf cs root p)
      (hp : c.parent_comment_id = some p.id) : DescOf cs root c

/-- A thread: `c1` (top-level, by `u1`) with reply `r1` and second-level
reply `r2`, plus an unrelated top-level comment `z9`. -/
def exDelDB : DB :=
  ⟨[⟨"i1", some "u0", 0, 0⟩], [],
   [⟨"c1", "i1", "u1", "a", none, 1, none⟩,
    ⟨"r1", "i1", "u2", "b", some "c1", 2, none⟩,
    ⟨"r2", "i1", "u3", "c", some "r1", 3, none⟩,
    ⟨"z9", "i1", "u4", "d", none, 4, none⟩]⟩

/-- C6 evaluated at a concrete thread: `u1` (the author) successfully
deletes the top-level comment `c1`, whose descendants in the pre-state
are `r1` (direct reply) and `r2` (reply to `r1`).  The ORM nulls `r1`'s
parent pointer instead of cascading, so the subsequently built tree for
the idea still contains both descendants: `r1` reappears as a top-level
root with `r2` beneath it. -/
theorem delete_orphans_replies :
    (delete_comment exDelDB "c1" "u1").1 = .deleted ∧
    (exDelDB.comments.find? (fun c => c.id == "r1")).map (fun c => c.parent_comment_id) =
      some (some "c1") ∧
    ((get_idea_comments (delete_comment exDelDB "c1" "u1").2 "i1").map
      (fun n => n.comment.id)) = ["z9", "r1"] ∧
    ((get_idea_comments (delete_comment exDelDB "c1" "u1").2 "i1").map
      (fun n => n.replies.map (fun r => r.comment.id))) = [[], ["r2"]] ∧
    DescOf exDelDB.comments "c1" ⟨"r1", "i1", "u2", "b", some "c1", 2, none⟩ ∧
    DescOf exDelDB.comments "c1" ⟨"r2", "i1", "u3", "c", some "r1", 3, none⟩ :=
  ⟨by decide, by decide, by decide, by decide,
   DescOf.direct _ (by decide) rfl,
   DescOf.step _ ⟨"r1", "i1", "u2", "b", some "c1", 2, none⟩ (by decide)
     (DescOf.direct _ (by decide) rfl) rfl⟩
